import Mathlib

/-!
Shallow embedding of the Testify test-runner core (src/testify): the
discovery-time bucket/method-override filtering, the run loop with its
interrupt handling and reporter aggregation, the console reporter's glyphs
and final statistics, the JSON reporter's per-result object, and the
command-line method-override parser.  External collaborators (the discovery
adapter, the test-case execution engine, hash-based bucket computation) are
taken as parameters or modelled from the specification where the repository
does not ship their code.
-/

namespace Testify

/-- A discovered test-case class: its defining module and its class name
(`__name__`). -/
structure TestCaseClass where
  module : String
  name : String
deriving DecidableEq, Repr

/-- Modelled from the spec: `MetaTestCase._cmp_str` lives in `test_case.py`,
which is not under src/.  Per spec section 3, a test class identity is the
fully-qualified `"module.ClassName"` string, the same key format that
`get_bucket_overrides` (src/testify/test_program.py) documents. -/
def cmpStr (c : TestCaseClass) : String := c.module ++ "." ++ c.name

/-- The bucket-override table: `"module.ClassName"` to integer bucket
(src/testify/test_program.py, `get_bucket_overrides`). -/
abbrev BucketOverrides := List (String × Int)

/-- The method-override table built from positional command-line arguments:
class name to either `none` (no restriction) or a set of method names
(src/testify/test_program.py line 129). -/
abbrev MethodOverrides := List (String × Option (List String))

/-- The bucket filter of `TestRunner.discover` (src/testify/test_runner.py
lines 69-72).  `computedBucket` stands for the external
`test_case_class.bucket(bucket_count)` call, whose code (`test_case.py`) is
not under src/; the filter is faithful to the source for every choice of it:

    override_bucket = bucket_overrides.get(MetaTestCase._cmp_str(cls))
    bucket is None
      or (override_bucket is None and cls.bucket(bucket_count) == bucket)
      or (override_bucket is not None and override_bucket == bucket)
-/
def bucketFilter (computedBucket : TestCaseClass → Option Int → Int)
    (bucket : Option Int) (bucket_count : Option Int)
    (bucket_overrides : BucketOverrides) (cls : TestCaseClass) : Bool :=
  let override_bucket := bucket_overrides.lookup (cmpStr cls)
  bucket.isNone
    || (override_bucket.isNone && (some (computedBucket cls bucket_count) == bucket))
    || (override_bucket.isSome && (override_bucket == bucket))

/-- The method `TestRunner.discover` (src/testify/test_runner.py lines 67-74): the list
of classes admitted (appended via `add_test_case`) out of the classes the
discovery adapter yields.  A class is appended when the bucket filter passes
and (`not self.module_method_overrides or cls.__name__ in
self.module_method_overrides`). -/
def TestRunner.discover (computedBucket : TestCaseClass → Option Int → Int)
    (module_method_overrides : MethodOverrides)
    (discovered : List TestCaseClass) (bucket bucket_count : Option Int)
    (bucket_overrides : BucketOverrides) : List TestCaseClass :=
  discovered.filter fun c =>
    bucketFilter computedBucket bucket bucket_count bucket_overrides c
      && (module_method_overrides.isEmpty
            || (module_method_overrides.lookup c.name).isSome)

/-- Structured exception information attached to an unsuccessful result
(`result.exception_info`), consumed opaquely by the reporters. -/
structure ExceptionInfo where
  frames : List String
  etype : String
  value : String
deriving DecidableEq, Repr

/-- A completed per-method result as the reporters consume it: the mutually
exclusive classification flags, the `expected-failure` suite membership
answered by the external `in_suite` query, and the identification and timing
fields the JSON reporter serialises. -/
structure TestResult where
  success : Bool
  unexpected_success : Bool
  failure : Bool
  error : Bool
  incomplete : Bool
  inExpectedFailureSuite : Bool
  methodName : String
  test_method_module : String
  start_time : String
  end_time : String
  run_time : String
  exception_info : ExceptionInfo
deriving DecidableEq, Repr

/-- One admitted class as the run loop sees it: the class, whether the
instance reports any runnable test methods (src/testify/test_runner.py line
101), the results its `run()` delivers to the registered reporters, and
whether a `KeyboardInterrupt`/`SystemExit` is raised during its run (after
those results were delivered). -/
structure ClassRun where
  cls : TestCaseClass
  hasRunnableMethods : Bool
  results : List TestResult
  interrupts : Bool
deriving DecidableEq, Repr

/-- Python `dict.setdefault(k, v)`: leave the dictionary unchanged when `k`
is already a key, otherwise append `k ↦ v`. -/
def setdefault (d : MethodOverrides) (k : String) (v : Option (List String)) :
    MethodOverrides :=
  if (d.lookup k).isSome then d else d ++ [(k, v)]

/-- The `try` body of `TestRunner.run` (src/testify/test_runner.py lines
93-126): iterate the admitted classes in order; for each, first call
`self.module_method_overrides.setdefault(cls.__name__, None)` (line 95),
skip the class when it has no runnable methods, otherwise run it, the
registered reporters observing its results; a `KeyboardInterrupt` or
`SystemExit` raised during a class's run ends the loop there (caught at line
123).  Returns the full sequence of results the reporters observed and the
method-override table as the loop leaves it. -/
def runLoop : List ClassRun → MethodOverrides → List TestResult × MethodOverrides
  | [], mmo => ([], mmo)
  | c :: rest, mmo =>
    let mmo1 := setdefault mmo c.cls.name none
    if c.hasRunnableMethods then
      if c.interrupts then (c.results, mmo1)
      else
        let out := runLoop rest mmo1
        (c.results ++ out.1, out.2)
    else
      runLoop rest mmo1

/-- The method `TestRunner.run` (src/testify/test_runner.py lines 79-129).  A reporter
is abstracted as its verdict function: `report()` is determined by the
sequence of results delivered to its `test_complete` callback.  After the
loop (normal or interrupted), `report = [reporter.report() for reporter in
self.test_reporters]; return all(report)` (lines 128-129).  The second
component is the method-override table after the loop's `setdefault` calls. -/
def TestRunner.run (reporters : List (List TestResult → Bool))
    (classes : List ClassRun) (mmo : MethodOverrides) : Bool × MethodOverrides :=
  let out := runLoop classes mmo
  (reporters.all fun rep => rep out.1, out.2)

/-- Spec section 4.3's description of what the reporters observe (a second
definition, following the spec's words, to compare with `runLoop`): the
results of every runnable admitted class before the first interrupted one,
followed by the results the interrupted class delivered before the
interrupt; all results when no interrupt arrives. -/
def collectedResults (classes : List ClassRun) : List TestResult :=
  let ran := classes.takeWhile fun c => !(c.hasRunnableMethods && c.interrupts)
  ((ran.filter fun c => c.hasRunnableMethods).map fun c => c.results).flatten
    ++ (match classes.find? fun c => c.hasRunnableMethods && c.interrupts with
        | some c => c.results
        | none => [])

/-- The run-tests branch of `TestProgram.__init__` (src/testify/test_program.py
lines 158-179): `runner.discover` may raise `test_discovery.DiscoveryError`,
in which case the process exits with status 1 before any test executes
(lines 160-162); otherwise `result = runner.run(); sys.exit(not result)`
(lines 178-179).  Returns the process exit status and the trace of results
of the tests that executed. -/
def TestProgram.runTests (reporters : List (List TestResult → Bool))
    (disc : Except String (List ClassRun)) (mmo : MethodOverrides) :
    Nat × List TestResult :=
  match disc with
  | .error _ => (1, [])
  | .ok classes =>
    let out := runLoop classes mmo
    (if (reporters.all fun rep => rep out.1) then 0 else 1, out.1)

/-! ### Console reporter (src/testify/test_logger.py) -/

/-- The method `TextTestLogger.report_test_result` (src/testify/test_logger.py lines
66-123) at `VERBOSITY_NORMAL`, for the colorless variant
(`ColorlessTextTestLogger._colorize` is the identity, lines 197-201): the
string passed to `self.write` for one completed result.  The branch order is
the source's `if`/`elif` chain; the success branch writes `'.'` in both of
its sub-branches (green for an ordinary success, red for an unexpected
one). -/
def reportTestResultNormal (r : TestResult) : String :=
  if r.success then
    if !r.unexpected_success then "." else "."
  else if r.failure then
    if r.inExpectedFailureSuite then "f" else "F"
  else if r.error then
    if r.inExpectedFailureSuite then "e" else "E"
  else if r.incomplete then "-"
  else "?"

/-- The glyph table exactly as claim C7 and the spec's words state it (a
second definition, for comparison with `reportTestResultNormal`): `.`
success, `F` failure, `E` error, `-` incomplete, `?` unknown. -/
def claimedGlyph (r : TestResult) : String :=
  if r.success then "."
  else if r.failure then "F"
  else if r.error then "E"
  else if r.incomplete then "-"
  else "?"

/-- The classified result collections handed to
`TextTestLogger.report_stats` as keyword arguments (src/testify/test_logger.py
lines 140-145). -/
structure StatsInput where
  successful : List TestResult
  unexpected_success : List TestResult
  failed : List TestResult
  incomplete : List TestResult
  unknown : List TestResult
deriving Repr

/-- The local `unexpected_failed` of `report_stats` (src/testify/test_logger.py line
150): the failed results not in the `expected-failure` suite. -/
def unexpectedFailed (s : StatsInput) : List TestResult :=
  s.failed.filter fun r => !r.inExpectedFailureSuite

/-- The local `overall_success` of `report_stats` (src/testify/test_logger.py line
151): `not unexpected_failed and not unknown and not incomplete`. -/
def overallSuccess (s : StatsInput) : Bool :=
  (unexpectedFailed s).isEmpty && s.unknown.isEmpty && s.incomplete.isEmpty

/-- The status word of the summary line (src/testify/test_logger.py line
154), colorless. -/
def statusString (s : StatsInput) : String :=
  if overallSuccess s then "PASSED" else "FAILED"

/-- The `(%d expected)` tally of the `failed` part of the summary line
(src/testify/test_logger.py line 162): `len(failed) - len(unexpected_failed)`. -/
def failedExpectedTally (s : StatsInput) : Nat :=
  s.failed.length - (unexpectedFailed s).length

/-! ### JSON reporter (src/testify/json_reporter.py) -/

/-- A JSON value as the reporter's emitted object holds one. -/
inductive JValue where
  | jstr : String → JValue
  | jbool : Bool → JValue
  | jint : Int → JValue
  | jarr : List String → JValue
deriving DecidableEq, Repr

/-- Python `d[k] = v` on a dict kept as an insertion-ordered association
list: replace the value in place when `k` is a key, else append. -/
def dictUpdate {β : Type} (d : List (String × β)) (k : String) (v : β) :
    List (String × β) :=
  match d with
  | [] => [(k, v)]
  | (ak, av) :: t => if ak = k then (k, v) :: t else (ak, av) :: dictUpdate t k v

/-- Modelled from the spec: `testify.utils.exception.format_exception_info`
is not under src/.  Spec sections 4.5.2 and 7: it renders the exception's
formatted traceback lines and "must tolerate missing frame information
(e.g., a trace with no relevant frames ...) and fall back to a one-line
`Exception: <type> (<value>)` representation". -/
def format_exception_info (e : ExceptionInfo) : List String :=
  if e.frames.isEmpty then
    ["Exception: " ++ e.etype ++ " (" ++ e.value ++ ")"]
  else e.frames

/-- Python `s.strip()`: the string with leading and trailing whitespace
removed. -/
def pyStrip (s : String) : String :=
  String.mk
    (((s.data.dropWhile Char.isWhitespace).reverse.dropWhile
        Char.isWhitespace).reverse)

/-- The options the JSON reporter consults in `test_complete`
(src/testify/json_reporter.py lines 50-59 and 79): `label`,
`extra_json_info` (already parsed from its JSON string), `bucket`,
`bucket_count` and `json_results_logging` (which decides whether
`self.log_hndl` was installed, lines 33-44).  For `label` and
`extra_json_info` the source tests truthiness, so `some` stands for a truthy
(non-empty) value; `bucket` and `bucket_count` are tested with
`is not None` exactly as modelled. -/
structure JsonOptions where
  label : Option String
  extra_json_info : Option (List (String × JValue))
  bucket : Option Int
  bucket_count : Option Int
  json_results_logging : Bool

/-- What `test_complete` reads from its `test_case` argument: the class name
and the two external classification predicates `is_fixture_method` and
`method_excluded` evaluated at the result's method. -/
structure TestCaseInfo where
  className : String
  isFixtureMethod : Bool
  methodExcluded : Bool

/-- The method `JSONReporter.test_complete` (src/testify/json_reporter.py lines 46-85):
the `out_result` dict as it is serialised, as an insertion-ordered
association list.  `logLines` stands for `self.log_hndl.results()`, the log
text captured during this method's execution.  On failure, `tb` is the
formatted exception info, `error` is `str(tb[-1]).strip()`, and `log` is
added only when the log handler is installed. -/
def JSONReporter.test_complete (opts : JsonOptions) (logLines : List String)
    (test_case : TestCaseInfo) (result : TestResult) : List (String × JValue) :=
  let o : List (String × JValue) := []
  let o := match opts.label with
    | some l => dictUpdate o "label" (.jstr l)
    | none => o
  let o := match opts.extra_json_info with
    | some extra => extra.foldl (fun acc kv => dictUpdate acc kv.1 kv.2) o
    | none => o
  let o := match opts.bucket with
    | some b => dictUpdate o "bucket" (.jint b)
    | none => o
  let o := match opts.bucket_count with
    | some bc => dictUpdate o "bucket_count" (.jint bc)
    | none => o
  let o := dictUpdate o "name"
    (.jstr (test_case.className ++ "." ++ result.methodName))
  let o := dictUpdate o "module" (.jstr result.test_method_module)
  let o := dictUpdate o "start_time" (.jstr result.start_time)
  let o := dictUpdate o "end_time" (.jstr result.end_time)
  let o := dictUpdate o "run_time" (.jstr result.run_time)
  let o := dictUpdate o "type" (.jstr
    (if test_case.isFixtureMethod then "fixture"
     else if test_case.methodExcluded then "excluded" else "test"))
  let o := dictUpdate o "success" (.jbool result.success)
  if !result.success then
    let tb := format_exception_info result.exception_info
    let o := dictUpdate o "tb" (.jarr tb)
    let o := dictUpdate o "error" (.jstr (pyStrip (tb.getLastD "")))
    if opts.json_results_logging then dictUpdate o "log" (.jarr logLines)
    else o
  else o

/-! ### Command-line method-override parsing (src/testify/test_program.py) -/

/-- Splitting a character list on a separator character, accumulating the
current piece in reverse. -/
def splitOnCharAux (c : Char) : List Char → List Char → List String
  | [], acc => [String.mk acc.reverse]
  | ch :: rest, acc =>
      if ch = c then String.mk acc.reverse :: splitOnCharAux c rest []
      else splitOnCharAux c rest (ch :: acc)

/-- Python `s.split(c)` for a one-character separator: every occurrence
splits, adjacent separators yield empty pieces, the empty string yields
`[""]`. -/
def pySplit (s : String) (c : Char) : List String := splitOnCharAux c s.data []

/-- First component of `arg.split('.')` (src/testify/test_program.py lines
131-132); `split` always returns a non-empty list, so `components[0]` never
fails. -/
def argModuleName (arg : String) : String := (pySplit arg '.').headD ""

/-- The expression `components[1] if len(components) > 1 else None`
(src/testify/test_program.py line 133). -/
def argMethodNameRaw (arg : String) : Option String :=
  if (pySplit arg '.').length > 1 then (pySplit arg '.').get? 1 else none

/-- The method name as the `if method_name:` truthiness test consumes it
(src/testify/test_program.py line 134): both `None` and Python's falsy empty
string select the bare-name branch, so a trailing-dot argument such as `"A."`
behaves as a bare class name. -/
def argMethodName (arg : String) : Option String :=
  match argMethodNameRaw arg with
  | some m => if m = "" then none else some m
  | none => none

/-- The statement `module_method_overrides[module_name].add(method_name)` on the
`defaultdict(set)` (src/testify/test_program.py line 135): a missing key is
first given a fresh empty set (appended in insertion order) and the method
added; an existing set gains the method; an existing `None` value (stored by
an earlier bare class-name argument, line 137) has no `add` attribute, so the
call raises `AttributeError`. -/
def addMethodOverride (d : MethodOverrides) (k m : String) :
    Except String MethodOverrides :=
  match d.lookup k with
  | none => .ok (d ++ [(k, some [m])])
  | some (some s) => .ok (dictUpdate d k (some (if m ∈ s then s else s ++ [m])))
  | some none => .error "AttributeError: NoneType object has no attribute add"

/-- One iteration of the loop over `args[1:]` (src/testify/test_program.py
lines 130-137). -/
def parseStep (d : MethodOverrides) (arg : String) : Except String MethodOverrides :=
  match argMethodName arg with
  | some m => addMethodOverride d (argModuleName arg) m
  | none => .ok (dictUpdate d (argModuleName arg) none)

/-- The function `_parse_test_runner_command_line_module_method_overrides`
(src/testify/test_program.py lines 122-139): `args[0]` is the test path (an
empty argument list would raise `IndexError`); the remaining arguments build
the method-override table. -/
def parseModuleMethodOverrides (args : List String) :
    Except String (String × MethodOverrides) :=
  match args with
  | [] => .error "IndexError: list index out of range"
  | test_path :: rest => do
    let d ← rest.foldlM parseStep []
    return (test_path, d)

/-- Among `args[1:]` class `n` is named by an argument with no method part. -/
def isBareName (rest : List String) (n : String) : Prop :=
  ∃ a ∈ rest, argMethodName a = none ∧ argModuleName a = n

/-- Among `args[1:]` class `n` is named by a `Class.method` argument. -/
def isDottedName (rest : List String) (n : String) : Prop :=
  ∃ a ∈ rest, (argMethodName a).isSome ∧ argModuleName a = n

/-- Some argument of `args[1:]` mentions class `n`. -/
def usedName (rest : List String) (n : String) : Prop :=
  ∃ a ∈ rest, argModuleName a = n

/-- Claim C10's hypothesis: each class name appears either only bare or only
in `Class.method` form (no class is named both ways). -/
def consistentArgs (rest : List String) : Prop :=
  ∀ a ∈ rest, ∀ b ∈ rest, argModuleName a = argModuleName b →
    ((argMethodName a).isNone ↔ (argMethodName b).isNone)

/-- The methods listed for class `n` among `args[1:]`, in order. -/
def listedMethods (rest : List String) (n : String) : List String :=
  (rest.filter fun a => argModuleName a = n).filterMap argMethodName

/-- The loop invariant of the parser's fold: after processing the arguments
`pre`, the table binds exactly the class names `pre` mentions — a bare-named
class to `None` and a dotted-named class to the set of its listed methods. -/
def parseInv (d : MethodOverrides) (pre : List String) : Prop :=
  ∀ n : String,
    (¬usedName pre n → d.lookup n = none)
    ∧ (usedName pre n → (d.lookup n).isSome = true)
    ∧ (isBareName pre n → d.lookup n = some none)
    ∧ (isDottedName pre n →
        ∃ s, d.lookup n = some (some s) ∧ ∀ m, m ∈ s ↔ m ∈ listedMethods pre n)

/-! ## Helper lemmas -/

theorem lookup_or_append {β : Type} (q : String) (d e : List (String × β)) :
    (d ++ e).lookup q = (d.lookup q).or (e.lookup q) := by
  induction d with
  | nil => simp
  | cons a t ih =>
    obtain ⟨ak, av⟩ := a
    by_cases h : q = ak
    · subst h
      simp [List.lookup_cons]
    · simp [List.lookup_cons, beq_false_of_ne h, ih]

theorem lookup_dictUpdate {β : Type} (d : List (String × β)) (k q : String) (v : β) :
    (dictUpdate d k v).lookup q = if q = k then some v else d.lookup q := by
  induction d with
  | nil =>
    by_cases h : q = k
    · subst h
      simp [dictUpdate, List.lookup_cons]
    · simp [dictUpdate, List.lookup_cons, beq_false_of_ne h, h]
  | cons a t ih =>
    obtain ⟨ak, av⟩ := a
    by_cases hak : ak = k
    · subst hak
      by_cases hq : q = ak
      · subst hq
        simp [dictUpdate, List.lookup_cons]
      · simp [dictUpdate, List.lookup_cons, beq_false_of_ne hq, hq]
    · by_cases hq : q = ak
      · subst hq
        have hqk : ¬q = k := fun he => hak he
        simp [dictUpdate, hak, List.lookup_cons, hqk]
      · simp [dictUpdate, hak, List.lookup_cons, beq_false_of_ne hq, ih]

theorem lookup_foldl_dictUpdate {β : Type} (q : String) (e : List (String × β)) :
    ∀ o : List (String × β), e.lookup q = none →
      ((e.foldl (fun acc kv => dictUpdate acc kv.1 kv.2) o).lookup q) = o.lookup q := by
  induction e with
  | nil => intro o _; rfl
  | cons kv t ih =>
    intro o h
    obtain ⟨ek, ev⟩ := kv
    have h1 : ¬(q = ek) := by
      intro he
      subst he
      simp [List.lookup_cons] at h
    have h2 : t.lookup q = none := by
      simpa [List.lookup_cons, beq_false_of_ne h1] using h
    simp [List.foldl_cons, ih _ h2, lookup_dictUpdate, h1]

theorem length_filter_split {α : Type} (l : List α) (p : α → Bool) :
    (l.filter p).length + (l.filter fun a => !p a).length = l.length := by
  induction l with
  | nil => rfl
  | cons a t ih =>
    by_cases h : p a <;> simp [List.filter_cons, h, ← ih] <;> omega

/-! ## Claims C1-C3: discovery-time admission -/

/-- C1: with a requested bucket set, a class whose `module.ClassName`
identity has a bucket override passes the bucket filter of
`TestRunner.discover` exactly when the override equals the requested bucket,
whatever the external computed hash bucket is. -/
theorem c1_override_decides_bucket_filter
    (computedBucket : TestCaseClass → Option Int → Int) (b : Int)
    (bucket_count : Option Int) (bo : BucketOverrides) (cls : TestCaseClass)
    (ob : Int) (h : bo.lookup (cmpStr cls) = some ob) :
    bucketFilter computedBucket (some b) bucket_count bo cls = (ob == b) := by
  simp [bucketFilter, h]

/-- Witness for C1 at a concrete input: the override 2 equals the requested
bucket 2, so the filter passes even though the computed bucket would be 5. -/
theorem c1_witness :
    bucketFilter (fun _ _ => 5) (some 2) none [("m.A", 2)] ⟨"m", "A"⟩ = true := by
  rw [c1_override_decides_bucket_filter (fun _ _ => 5) 2 none [("m.A", 2)]
    ⟨"m", "A"⟩ 2 (by decide)]
  decide

/-- C2 as stated is false: bucket filtering is keyed on the requested
bucket, not on `bucket_count`.  Concretely, with `bucket_count = 0`, a
requested bucket of 1 and an override assigning the class to bucket 0, the
class fails the bucket filter and is not admitted. -/
theorem c2_counterexample :
    bucketFilter (fun _ _ => 0) (some 1) (some 0) [("m.A", 0)] ⟨"m", "A"⟩ = false
    ∧ TestRunner.discover (fun _ _ => 0) [] [⟨"m", "A"⟩] (some 1) (some 0)
        [("m.A", 0)] = [] := by
  decide

/-- C2 amended: bucket filtering is a no-op exactly when the requested
bucket is unset (`bucket is None`, src/testify/test_runner.py line 70):
every class passes the bucket filter, for all values of `bucket_count` and
of the override table; with no method-override table every discovered class
is then admitted. -/
theorem c2_bucket_none_is_noop :
    (∀ (computedBucket : TestCaseClass → Option Int → Int)
        (bucket_count : Option Int) (bo : BucketOverrides) (cls : TestCaseClass),
        bucketFilter computedBucket none bucket_count bo cls = true)
    ∧ ∀ (computedBucket : TestCaseClass → Option Int → Int)
        (bucket_count : Option Int) (bo : BucketOverrides)
        (discovered : List TestCaseClass),
        TestRunner.discover computedBucket [] discovered none bucket_count bo
          = discovered := by
  constructor
  · intro f bc bo cls
    simp [bucketFilter]
  · intro f bc bo discovered
    simp [TestRunner.discover, bucketFilter]

/-- C3: a discovered class is admitted by `TestRunner.discover` iff the
bucket filter passes and (the method-override table is empty or the class's
name is one of its keys). -/
theorem c3_admission_iff (computedBucket : TestCaseClass → Option Int → Int)
    (mmo : MethodOverrides) (discovered : List TestCaseClass)
    (bucket bucket_count : Option Int) (bo : BucketOverrides)
    (cls : TestCaseClass) :
    cls ∈ TestRunner.discover computedBucket mmo discovered bucket bucket_count bo
      ↔ cls ∈ discovered
        ∧ bucketFilter computedBucket bucket bucket_count bo cls = true
        ∧ (mmo = [] ∨ (mmo.lookup cls.name).isSome = true) := by
  simp [TestRunner.discover, List.mem_filter, List.isEmpty_iff, and_assoc]

/-! ## Claims C4, C5, C9: the run loop, exit status, table mutation -/

theorem runLoop_results (classes : List ClassRun) :
    ∀ mmo : MethodOverrides, (runLoop classes mmo).1 = collectedResults classes := by
  induction classes with
  | nil => intro mmo; rfl
  | cons c rest ih =>
    intro mmo
    by_cases h1 : c.hasRunnableMethods
    · by_cases h2 : c.interrupts
      · simp [runLoop, collectedResults, h1, h2, List.takeWhile_cons, List.find?_cons]
      · simp [runLoop, collectedResults, h1, h2, List.takeWhile_cons, List.find?_cons,
          List.filter_cons, ih]
    · simp [runLoop, collectedResults, h1, List.takeWhile_cons, List.find?_cons,
        List.filter_cons, ih]

/-- C4: `TestRunner.run` returns the logical AND of every registered
reporter's verdict, evaluated on exactly the results collected before the
loop ended — the whole sequence when the loop completes normally, and the
prefix delivered before a `KeyboardInterrupt`/`SystemExit` when one arrives
(the interrupt is absorbed and every reporter is still asked). -/
theorem c4_run_is_and_of_verdicts (reporters : List (List TestResult → Bool))
    (classes : List ClassRun) (mmo : MethodOverrides) :
    (TestRunner.run reporters classes mmo).1
      = reporters.all fun rep => rep (collectedResults classes) := by
  simp [TestRunner.run, runLoop_results]

/-- C5: the process exit status of the run-tests action is 0 iff the
aggregated verdict of `TestRunner.run` is success (`sys.exit(not result)`),
and a `DiscoveryError` exits with status 1 with no test executed. -/
theorem c5_exit_status (reporters : List (List TestResult → Bool))
    (mmo : MethodOverrides) :
    (∀ msg, TestProgram.runTests reporters (.error msg) mmo = (1, []))
    ∧ ∀ classes : List ClassRun,
        ((TestProgram.runTests reporters (.ok classes) mmo).1 = 0
          ↔ (TestRunner.run reporters classes mmo).1 = true) := by
  constructor
  · intro msg; rfl
  · intro classes
    by_cases h : (reporters.all fun rep => rep (runLoop classes mmo).1) = true
    · simp [TestProgram.runTests, TestRunner.run, h]
    · simp [TestProgram.runTests, TestRunner.run, h]

theorem lookup_append_left {β : Type} (q : String) (d e : List (String × β))
    (w : β) (h : d.lookup q = some w) : (d ++ e).lookup q = some w := by
  rw [lookup_or_append, h]
  rfl

theorem runLoop_lookup_preserved (classes : List ClassRun) :
    ∀ (mmo : MethodOverrides) (k : String) (v : Option (List String)),
      mmo.lookup k = some v → ((runLoop classes mmo).2).lookup k = some v := by
  induction classes with
  | nil => intro mmo k v h; exact h
  | cons c rest ih =>
    intro mmo k v h
    have hset : (setdefault mmo c.cls.name none).lookup k = some v := by
      unfold setdefault
      by_cases hp : (mmo.lookup c.cls.name).isSome
      · simp [hp, h]
      · simp only [hp, Bool.false_eq_true, if_false]
        exact lookup_append_left k mmo [(c.cls.name, none)] v h
    unfold runLoop
    by_cases h1 : c.hasRunnableMethods
    · by_cases h2 : c.interrupts
      · simpa [h1, h2] using hset
      · simpa [h1, h2] using ih _ _ _ hset
    · simpa [h1] using ih _ _ _ hset

theorem runLoop_mmo_unchanged (classes : List ClassRun) :
    ∀ mmo : MethodOverrides,
      (∀ c ∈ classes, (mmo.lookup c.cls.name).isSome = true) →
      (runLoop classes mmo).2 = mmo := by
  induction classes with
  | nil => intro mmo _; rfl
  | cons c rest ih =>
    intro mmo h
    have hset : setdefault mmo c.cls.name none = mmo := by
      unfold setdefault
      simp [h c (List.mem_cons_self c rest)]
    have hrest : ∀ c2 ∈ rest, (mmo.lookup c2.cls.name).isSome = true :=
      fun c2 hc2 => h c2 (List.mem_cons_of_mem c hc2)
    unfold runLoop
    by_cases h1 : c.hasRunnableMethods
    · by_cases h2 : c.interrupts
      · simpa [h1, h2] using hset
      · simp [h1, h2, hset, ih mmo hrest]
    · simp [h1, hset, ih mmo hrest]

/-- C9 as stated is false: the loop body of `TestRunner.run` calls
`self.module_method_overrides.setdefault(cls.__name__, None)`
(src/testify/test_runner.py line 95), which adds an entry to the
method-override table when the class's name is not yet a key.  Starting from
an empty table (with which discovery admits every class), running one class
named `A` leaves the table holding `A ↦ None`. -/
theorem c9_counterexample :
    (TestRunner.run [] [⟨⟨"m", "A"⟩, true, [], false⟩] []).2 = [("A", none)]
    ∧ (TestRunner.run [] [⟨⟨"m", "A"⟩, true, [], false⟩] []).2 ≠ [] := by
  decide

/-- C9 amended: `TestRunner.run` never removes or rewrites an existing entry
of the method-override table (every existing binding survives unchanged),
and when every processed class's name is already a key — which holds for any
discovery-admitted class list whenever the table is non-empty — the table is
left exactly as it was; the only mutation ever made is `setdefault` adding
`name ↦ None` for a class name that is absent, possible only when the table
was empty at discovery time.  The bucket-override table is not touched by
`run()` at all (it is local to `TestProgram` and only read by `discover`). -/
theorem c9_amended (reporters : List (List TestResult → Bool))
    (classes : List ClassRun) (mmo : MethodOverrides) :
    (∀ k v, mmo.lookup k = some v →
        ((TestRunner.run reporters classes mmo).2).lookup k = some v)
    ∧ ((∀ c ∈ classes, (mmo.lookup c.cls.name).isSome = true) →
        (TestRunner.run reporters classes mmo).2 = mmo) := by
  constructor
  · intro k v h
    exact runLoop_lookup_preserved classes mmo k v h
  · intro h
    exact runLoop_mmo_unchanged classes mmo h

/-! ## Claims C6, C7: the console reporter -/

/-- C6: the final statistics report the run PASSED iff there are no unknown
results, no incomplete results, and no failed results outside the
`expected-failure` suite; the expected failures are counted by the
`(%d expected)` tally of the summary line without flipping the verdict. -/
theorem c6_passed_iff (s : StatsInput) :
    (statusString s = "PASSED"
      ↔ s.unknown = [] ∧ s.incomplete = []
        ∧ ∀ r ∈ s.failed, r.inExpectedFailureSuite = true)
    ∧ failedExpectedTally s
        = (s.failed.filter fun r => r.inExpectedFailureSuite).length := by
  constructor
  · have hov : overallSuccess s = true
        ↔ (s.unknown = [] ∧ s.incomplete = []
            ∧ ∀ r ∈ s.failed, r.inExpectedFailureSuite = true) := by
      simp only [overallSuccess, unexpectedFailed, Bool.and_eq_true,
        List.isEmpty_iff, List.filter_eq_nil_iff, Bool.not_eq_true']
      constructor
      · rintro ⟨⟨hf, hu⟩, hi⟩
        exact ⟨hu, hi, fun r hr => Bool.not_eq_false _ ▸ (hf r hr)⟩
      · rintro ⟨hu, hi, hf⟩
        exact ⟨⟨fun r hr => by simp [hf r hr], hu⟩, hi⟩
    rw [← hov]
    unfold statusString
    by_cases h : overallSuccess s <;> simp [h]
  · have := length_filter_split s.failed fun r => r.inExpectedFailureSuite
    unfold failedExpectedTally unexpectedFailed
    omega

/-- C7 as stated is false: a failure belonging to the `expected-failure`
suite is written as lowercase `f` (src/testify/test_logger.py line 87), not
the claimed `F`. -/
theorem c7_counterexample :
    reportTestResultNormal
        ⟨false, false, true, false, false, true,
          "test_m", "mod", "s", "e", "t", ⟨[], "AssertionError", "v"⟩⟩
      ≠ claimedGlyph
        ⟨false, false, true, false, false, true,
          "test_m", "mod", "s", "e", "t", ⟨[], "AssertionError", "v"⟩⟩ := by
  decide

/-- C7 amended: at normal verbosity the console reporter emits exactly one
single-character glyph per completed result, determined by the
classification evaluated in the source's order: `.` for success (expected or
not), `F` for a failure — lowercase `f` when the method is in the
`expected-failure` suite — `E` for an error — lowercase `e` when in that
suite — `-` for incomplete, and `?` when no classification matches. -/
theorem c7_amended (r : TestResult) :
    (reportTestResultNormal r).length = 1
    ∧ reportTestResultNormal r
      = (if r.success then "."
         else if r.failure then if r.inExpectedFailureSuite then "f" else "F"
         else if r.error then if r.inExpectedFailureSuite then "e" else "E"
         else if r.incomplete then "-"
         else "?") := by
  obtain ⟨s, us, f, e, inc, exp, m1, m2, m3, m4, m5, ei⟩ := r
  cases s <;> cases us <;> cases f <;> cases e <;> cases inc <;> cases exp <;>
    exact ⟨rfl, rfl⟩

/-! ## Claim C8: the JSON reporter's emitted object -/

/-- C8 as stated is false in one corner: the optional `extra_json_info`
object is merged into `out_result` verbatim (src/testify/json_reporter.py
lines 52-55) before the success/failure fields are written, so a successful
result's object can carry a `tb` key that the operator injected through
`--extra-json-info`. -/
theorem c8_counterexample :
    (JSONReporter.test_complete
        ⟨none, some [("tb", JValue.jstr "injected")], none, none, false⟩ []
        ⟨"MyCase", false, false⟩
        ⟨true, false, false, false, false, false,
          "test_m", "mod", "s", "e", "t", ⟨[], "T", "v"⟩⟩).lookup "tb"
      = some (JValue.jstr "injected") := by
  decide

/-- C8 amended: provided the optional extra-json-info object (merged in
verbatim) does not itself carry a `tb`, `error` or `log` key, the object the
JSON reporter emits for an unsuccessful result has `success = false`, a
non-empty `tb` array holding the formatted exception traceback, and `error`
equal to the last element of `tb` stripped of surrounding whitespace; and
for a successful result none of `tb`, `error` or `log` appear. -/
theorem c8_amended (opts : JsonOptions) (logLines : List String)
    (tc : TestCaseInfo) (r : TestResult)
    (hextra : ∀ e, opts.extra_json_info = some e →
        e.lookup "tb" = none ∧ e.lookup "error" = none ∧ e.lookup "log" = none) :
    (r.success = false →
        (JSONReporter.test_complete opts logLines tc r).lookup "success"
            = some (JValue.jbool false)
        ∧ (JSONReporter.test_complete opts logLines tc r).lookup "tb"
            = some (JValue.jarr (format_exception_info r.exception_info))
        ∧ format_exception_info r.exception_info ≠ []
        ∧ (JSONReporter.test_complete opts logLines tc r).lookup "error"
            = some (JValue.jstr
                (pyStrip ((format_exception_info r.exception_info).getLastD ""))))
    ∧ (r.success = true →
        (JSONReporter.test_complete opts logLines tc r).lookup "tb" = none
        ∧ (JSONReporter.test_complete opts logLines tc r).lookup "error" = none
        ∧ (JSONReporter.test_complete opts logLines tc r).lookup "log" = none) := by
  obtain ⟨label, extra, bkt, bktc, jlog⟩ := opts
  have htbne : format_exception_info r.exception_info ≠ [] := by
    rcases hf : r.exception_info.frames with _ | ⟨a, t⟩ <;>
      simp [format_exception_info, hf]
  constructor
  · intro hs
    refine ⟨?_, ?_, htbne, ?_⟩ <;>
      (cases jlog <;> simp [JSONReporter.test_complete, hs, lookup_dictUpdate])
  · intro hs
    rcases extra with _ | e
    · refine ⟨?_, ?_, ?_⟩ <;>
        (cases label <;> cases bkt <;> cases bktc <;>
          simp [JSONReporter.test_complete, hs, lookup_dictUpdate])
    · obtain ⟨h1, h2, h3⟩ := hextra e rfl
      refine ⟨?_, ?_, ?_⟩ <;>
        (cases label <;> cases bkt <;> cases bktc <;>
          simp [JSONReporter.test_complete, hs, lookup_dictUpdate,
            lookup_foldl_dictUpdate, h1, h2, h3])

/-- Witness for C8 at a concrete failing result with two traceback lines. -/
theorem c8_witness :
    (JSONReporter.test_complete ⟨none, none, none, none, false⟩ []
        ⟨"MyCase", false, false⟩
        ⟨false, false, true, false, false, false,
          "test_m", "mod", "s", "e", "t",
          ⟨["Traceback line", "  AssertionError: nope  "], "T", "v"⟩⟩).lookup "tb"
      = some (JValue.jarr ["Traceback line", "  AssertionError: nope  "])
    ∧ (JSONReporter.test_complete ⟨none, none, none, none, false⟩ []
        ⟨"MyCase", false, false⟩
        ⟨false, false, true, false, false, false,
          "test_m", "mod", "s", "e", "t",
          ⟨["Traceback line", "  AssertionError: nope  "], "T", "v"⟩⟩).lookup "error"
      = some (JValue.jstr "AssertionError: nope") := by
  have h := c8_amended ⟨none, none, none, none, false⟩ []
      ⟨"MyCase", false, false⟩
      ⟨false, false, true, false, false, false,
        "test_m", "mod", "s", "e", "t",
        ⟨["Traceback line", "  AssertionError: nope  "], "T", "v"⟩⟩
      (fun e he => nomatch he)
  obtain ⟨hfail, -⟩ := h
  obtain ⟨-, htb, -, herr⟩ := hfail rfl
  exact ⟨htb.trans (by rfl), herr.trans (by rfl)⟩

/-! ## Claim C10: command-line method-override parsing -/

theorem usedName_append (pre : List String) (a n : String) :
    usedName (pre ++ [a]) n ↔ usedName pre n ∨ argModuleName a = n := by
  constructor
  · rintro ⟨b, hb, hbn⟩
    rcases List.mem_append.mp hb with h | h
    · exact Or.inl ⟨b, h, hbn⟩
    · rcases List.mem_singleton.mp h with rfl
      exact Or.inr hbn
  · rintro (⟨b, hb, hbn⟩ | h)
    · exact ⟨b, List.mem_append.mpr (Or.inl hb), hbn⟩
    · exact ⟨a, List.mem_append.mpr (Or.inr (List.mem_singleton.mpr rfl)), h⟩

theorem isBareName_append (pre : List String) (a n : String) :
    isBareName (pre ++ [a]) n
      ↔ isBareName pre n ∨ (argMethodName a = none ∧ argModuleName a = n) := by
  constructor
  · rintro ⟨b, hb, hbm, hbn⟩
    rcases List.mem_append.mp hb with h | h
    · exact Or.inl ⟨b, h, hbm, hbn⟩
    · rcases List.mem_singleton.mp h with rfl
      exact Or.inr ⟨hbm, hbn⟩
  · rintro (⟨b, hb, hbm, hbn⟩ | ⟨hm, hn⟩)
    · exact ⟨b, List.mem_append.mpr (Or.inl hb), hbm, hbn⟩
    · exact ⟨a, List.mem_append.mpr (Or.inr (List.mem_singleton.mpr rfl)), hm, hn⟩

theorem isDottedName_append (pre : List String) (a n : String) :
    isDottedName (pre ++ [a]) n
      ↔ isDottedName pre n
        ∨ ((argMethodName a).isSome = true ∧ argModuleName a = n) := by
  constructor
  · rintro ⟨b, hb, hbm, hbn⟩
    rcases List.mem_append.mp hb with h | h
    · exact Or.inl ⟨b, h, hbm, hbn⟩
    · rcases List.mem_singleton.mp h with rfl
      exact Or.inr ⟨hbm, hbn⟩
  · rintro (⟨b, hb, hbm, hbn⟩ | ⟨hm, hn⟩)
    · exact ⟨b, List.mem_append.mpr (Or.inl hb), hbm, hbn⟩
    · exact ⟨a, List.mem_append.mpr (Or.inr (List.mem_singleton.mpr rfl)), hm, hn⟩

theorem listedMethods_append (pre : List String) (a n : String) :
    listedMethods (pre ++ [a]) n
      = listedMethods pre n
        ++ (if argModuleName a = n then (argMethodName a).toList else []) := by
  unfold listedMethods
  rw [List.filter_append, List.filterMap_append]
  by_cases h : argModuleName a = n
  · rw [if_pos h]
    have hd : (List.filter (fun a => decide (argModuleName a = n)) [a]) = [a] := by
      simp [List.filter_cons, h]
    rw [hd]
    rcases hm : argMethodName a with _ | mm <;> simp [List.filterMap_cons, hm]
  · rw [if_neg h]
    have hd : (List.filter (fun a => decide (argModuleName a = n)) [a]) = [] := by
      simp [List.filter_cons, h]
    rw [hd]
    rfl

theorem used_of_lookup_isSome (d : MethodOverrides) (pre : List String)
    (hinv : parseInv d pre) (n : String) (h : (d.lookup n).isSome = true) :
    usedName pre n := by
  by_contra hn
  rw [(hinv n).1 hn] at h
  simp at h

theorem bare_or_dotted_of_used (pre : List String) (n : String)
    (h : usedName pre n) : isBareName pre n ∨ isDottedName pre n := by
  obtain ⟨b, hb, hbn⟩ := h
  rcases hm : argMethodName b with _ | mb
  · exact Or.inl ⟨b, hb, hm, hbn⟩
  · exact Or.inr ⟨b, hb, by simp [hm], hbn⟩

theorem no_methods_of_unused (pre : List String) (n : String)
    (h : ¬usedName pre n) : listedMethods pre n = [] := by
  unfold listedMethods
  have : pre.filter (fun a => argModuleName a = n) = [] := by
    rw [List.filter_eq_nil_iff]
    intro b hb
    simp only [decide_eq_true_eq]
    exact fun hbn => h ⟨b, hb, hbn⟩
  rw [this]
  rfl

theorem append_single_eq_dictUpdate {β : Type} (k : String) (v : β) :
    ∀ d : List (String × β), d.lookup k = none → d ++ [(k, v)] = dictUpdate d k v := by
  intro d
  induction d with
  | nil => intro _; rfl
  | cons a t ih =>
    intro h
    obtain ⟨ak, av⟩ := a
    have hak : ¬ak = k := by
      intro he
      subst he
      simp [List.lookup_cons] at h
    have ht : t.lookup k = none := by
      simpa [List.lookup_cons, beq_false_of_ne (fun he => hak he.symm)] using h
    simp [dictUpdate, hak, ih ht]

theorem no_bare_and_dotted (l : List String) (hc : consistentArgs l)
    (b a : String) (hb : b ∈ l) (ha : a ∈ l)
    (heq : argModuleName b = argModuleName a)
    (hbare : argMethodName b = none) (hdot : (argMethodName a).isSome = true) :
    False := by
  have hiff := hc b hb a ha heq
  rw [hbare] at hiff
  simp only [Option.isNone_none, true_iff] at hiff
  rw [Option.isNone_iff_eq_none] at hiff
  rw [hiff] at hdot
  simp at hdot

theorem parseInv_extend (d d2 : MethodOverrides) (pre : List String) (a : String)
    (hinv : parseInv d pre)
    (hother : ∀ n2, ¬n2 = argModuleName a → d2.lookup n2 = d.lookup n2)
    (hselfSome : (d2.lookup (argModuleName a)).isSome = true)
    (hselfBare : isBareName (pre ++ [a]) (argModuleName a) →
        d2.lookup (argModuleName a) = some none)
    (hselfDotted : isDottedName (pre ++ [a]) (argModuleName a) →
        ∃ s, d2.lookup (argModuleName a) = some (some s)
          ∧ ∀ m2, m2 ∈ s ↔ m2 ∈ listedMethods (pre ++ [a]) (argModuleName a)) :
    parseInv d2 (pre ++ [a]) := by
  intro n2
  by_cases hn2 : n2 = argModuleName a
  · rw [hn2]
    refine ⟨?_, ?_, ?_, ?_⟩
    · intro hu
      exact absurd ((usedName_append pre a _).mpr (Or.inr rfl)) hu
    · intro _
      exact hselfSome
    · exact hselfBare
    · exact hselfDotted
  · have hd2 : d2.lookup n2 = d.lookup n2 := hother n2 hn2
    have hmain : ¬argModuleName a = n2 := fun he => hn2 he.symm
    refine ⟨?_, ?_, ?_, ?_⟩
    · intro hu
      rw [hd2]
      exact (hinv n2).1 fun hu2 => hu ((usedName_append pre a n2).mpr (Or.inl hu2))
    · intro hu
      rw [hd2]
      rcases (usedName_append pre a n2).mp hu with hu1 | hu1
      · exact (hinv n2).2.1 hu1
      · exact absurd hu1 hmain
    · intro hbn
      rw [hd2]
      rcases (isBareName_append pre a n2).mp hbn with hb1 | ⟨_, hb2⟩
      · exact (hinv n2).2.2.1 hb1
      · exact absurd hb2 hmain
    · intro hdn
      rcases (isDottedName_append pre a n2).mp hdn with hd1 | ⟨_, hd2x⟩
      · obtain ⟨s2, hs2, hs2m⟩ := (hinv n2).2.2.2 hd1
        refine ⟨s2, by rw [hd2]; exact hs2, ?_⟩
        intro m2
        rw [listedMethods_append]
        simp [if_neg hmain, hs2m]
      · exact absurd hd2x hmain

theorem parse_fold_inv (rest : List String) :
    ∀ (pre : List String) (d : MethodOverrides),
      consistentArgs (pre ++ rest) → parseInv d pre →
      ∃ d2, List.foldlM parseStep d rest = Except.ok d2
        ∧ parseInv d2 (pre ++ rest) := by
  induction rest with
  | nil =>
    intro pre d _ hinv
    exact ⟨d, rfl, by simpa using hinv⟩
  | cons a t ih =>
    intro pre d hc hinv
    have hc2 : consistentArgs ((pre ++ [a]) ++ t) := by
      simpa [List.append_assoc] using hc
    have hamem : a ∈ pre ++ a :: t :=
      List.mem_append.mpr (Or.inr (List.mem_cons_self a t))
    rcases hma : argMethodName a with _ | m
    · -- bare class-name argument: d[argModuleName a] = None
      have hstep : parseStep d a = .ok (dictUpdate d (argModuleName a) none) := by
        simp [parseStep, hma]
      have hinv2 : parseInv (dictUpdate d (argModuleName a) none) (pre ++ [a]) := by
        refine parseInv_extend d _ pre a hinv ?_ ?_ ?_ ?_
        · intro n2 hn2
          rw [lookup_dictUpdate, if_neg hn2]
        · rw [lookup_dictUpdate, if_pos rfl]
          rfl
        · intro _
          rw [lookup_dictUpdate, if_pos rfl]
        · intro hdn
          exfalso
          rcases (isDottedName_append pre a _).mp hdn with hd1 | ⟨hs, _⟩
          · obtain ⟨b, hb, hbs, hbn⟩ := hd1
            exact no_bare_and_dotted (pre ++ a :: t) hc a b hamem
              (List.mem_append.mpr (Or.inl hb)) hbn.symm hma hbs
          · rw [hma] at hs
            simp at hs
      obtain ⟨d2, hfold, hinv3⟩ := ih (pre ++ [a]) _ hc2 hinv2
      refine ⟨d2, ?_, by simpa [List.append_assoc] using hinv3⟩
      rw [List.foldlM_cons, hstep]
      exact hfold
    · -- Class.method argument
      rcases hl : d.lookup (argModuleName a) with _ | v
      · -- class not yet a key: defaultdict inserts a fresh set holding m
        have hnu : ¬usedName pre (argModuleName a) := by
          intro hu
          have hsome := (hinv (argModuleName a)).2.1 hu
          rw [hl] at hsome
          simp at hsome
        have hstep : parseStep d a
            = .ok (dictUpdate d (argModuleName a) (some [m])) := by
          simp only [parseStep, hma, addMethodOverride, hl]
          rw [append_single_eq_dictUpdate _ _ d hl]
        have hinv2 :
            parseInv (dictUpdate d (argModuleName a) (some [m])) (pre ++ [a]) := by
          refine parseInv_extend d _ pre a hinv ?_ ?_ ?_ ?_
          · intro n2 hn2
            rw [lookup_dictUpdate, if_neg hn2]
          · rw [lookup_dictUpdate, if_pos rfl]
            rfl
          · intro hbn
            exfalso
            rcases (isBareName_append pre a _).mp hbn with hb1 | ⟨hb2, _⟩
            · obtain ⟨b, hb, _, hbn2⟩ := hb1
              exact hnu ⟨b, hb, hbn2⟩
            · rw [hma] at hb2
              simp at hb2
          · intro _
            refine ⟨[m], by rw [lookup_dictUpdate, if_pos rfl], fun m2 => ?_⟩
            rw [listedMethods_append, no_methods_of_unused pre _ hnu]
            simp [hma]
        obtain ⟨d2, hfold, hinv3⟩ := ih (pre ++ [a]) _ hc2 hinv2
        refine ⟨d2, ?_, by simpa [List.append_assoc] using hinv3⟩
        rw [List.foldlM_cons, hstep]
        exact hfold
      · rcases v with _ | s
        · -- stored value None: the source raises; impossible when each class
          -- name appears only bare or only dotted
          exfalso
          have hused : usedName pre (argModuleName a) :=
            used_of_lookup_isSome d pre hinv _ (by rw [hl]; rfl)
          rcases bare_or_dotted_of_used pre _ hused with hbare | hdot
          · obtain ⟨b, hb, hbm, hbn⟩ := hbare
            exact no_bare_and_dotted (pre ++ a :: t) hc b a
              (List.mem_append.mpr (Or.inl hb)) hamem hbn hbm (by rw [hma]; rfl)
          · obtain ⟨s, hs, _⟩ := (hinv _).2.2.2 hdot
            rw [hl] at hs
            simp at hs
        · -- stored value a set: the method joins the set
          have hdot : isDottedName pre (argModuleName a) := by
            have hused : usedName pre (argModuleName a) :=
              used_of_lookup_isSome d pre hinv _ (by rw [hl]; rfl)
            rcases bare_or_dotted_of_used pre _ hused with hbare | hdot
            · exfalso
              have hsn := (hinv _).2.2.1 hbare
              rw [hl] at hsn
              simp at hsn
            · exact hdot
          have hsm : ∀ m2, m2 ∈ s ↔ m2 ∈ listedMethods pre (argModuleName a) := by
            obtain ⟨s0, hs0, hs0m⟩ := (hinv _).2.2.2 hdot
            rw [hl] at hs0
            have hss : s = s0 := Option.some.inj (Option.some.inj hs0)
            intro m2
            rw [hss]
            exact hs0m m2
          have hstep : parseStep d a
              = .ok (dictUpdate d (argModuleName a)
                  (some (if m ∈ s then s else s ++ [m]))) := by
            simp [parseStep, hma, addMethodOverride, hl]
          have hinv2 : parseInv
              (dictUpdate d (argModuleName a)
                (some (if m ∈ s then s else s ++ [m]))) (pre ++ [a]) := by
            refine parseInv_extend d _ pre a hinv ?_ ?_ ?_ ?_
            · intro n2 hn2
              rw [lookup_dictUpdate, if_neg hn2]
            · rw [lookup_dictUpdate, if_pos rfl]
              rfl
            · intro hbn
              exfalso
              rcases (isBareName_append pre a _).mp hbn with hb1 | ⟨hb2, _⟩
              · have hsn := (hinv _).2.2.1 hb1
                rw [hl] at hsn
                simp at hsn
              · rw [hma] at hb2
                simp at hb2
            · intro _
              refine ⟨_, by rw [lookup_dictUpdate, if_pos rfl], fun m2 => ?_⟩
              rw [listedMethods_append]
              simp only [if_pos rfl, hma, Option.toList_some]
              constructor
              · intro hm2
                by_cases hms : m ∈ s
                · rw [if_pos hms] at hm2
                  exact List.mem_append.mpr (Or.inl ((hsm m2).mp hm2))
                · rw [if_neg hms] at hm2
                  rcases List.mem_append.mp hm2 with h2 | h2
                  · exact List.mem_append.mpr (Or.inl ((hsm m2).mp h2))
                  · exact List.mem_append.mpr (Or.inr h2)
              · intro hm2
                rcases List.mem_append.mp hm2 with h2 | h2
                · have h3 := (hsm m2).mpr h2
                  by_cases hms : m ∈ s
                  · rw [if_pos hms]
                    exact h3
                  · rw [if_neg hms]
                    exact List.mem_append.mpr (Or.inl h3)
                · rcases List.mem_singleton.mp h2 with rfl
                  by_cases hms : m2 ∈ s
                  · rw [if_pos hms]
                    exact hms
                  · rw [if_neg hms]
                    exact List.mem_append.mpr (Or.inr (List.mem_singleton.mpr rfl))
          obtain ⟨d2, hfold, hinv3⟩ := ih (pre ++ [a]) _ hc2 hinv2
          refine ⟨d2, ?_, by simpa [List.append_assoc] using hinv3⟩
          rw [List.foldlM_cons, hstep]
          exact hfold

/-- C10: when every class name among the positional arguments appears either
only bare or only in `Class.method` form, the parser returns a table mapping
each bare name to `None` ("no restriction"), each dotted name's class to the
set of its listed methods, and nothing else; and for the argument list
`['path', 'A', 'A.m']` — a bare class name followed by a `Class.method`
argument for the same class — it raises instead, because the bare entry
stored `None` and the later `.add` call has no such attribute. -/
theorem c10_parse_overrides :
    (∀ path rest, consistentArgs rest →
      ∃ d, parseModuleMethodOverrides (path :: rest) = .ok (path, d)
        ∧ (∀ n, isBareName rest n → d.lookup n = some none)
        ∧ (∀ n, isDottedName rest n →
            ∃ s, d.lookup n = some (some s)
              ∧ ∀ m, m ∈ s ↔ m ∈ listedMethods rest n)
        ∧ (∀ n, ¬usedName rest n → d.lookup n = none))
    ∧ parseModuleMethodOverrides ["path", "A", "A.m"]
        = .error "AttributeError: NoneType object has no attribute add" := by
  constructor
  · intro path rest hcons
    have hbase : parseInv [] [] := by
      intro n
      refine ⟨fun _ => rfl, ?_, ?_, ?_⟩
      · rintro ⟨b, hb, -⟩
        exact absurd hb (List.not_mem_nil b)
      · rintro ⟨b, hb, -⟩
        exact absurd hb (List.not_mem_nil b)
      · rintro ⟨b, hb, -⟩
        exact absurd hb (List.not_mem_nil b)
    obtain ⟨d2, hfold, hinv⟩ :=
      parse_fold_inv rest [] [] (by simpa using hcons) hbase
    rw [List.nil_append] at hinv
    refine ⟨d2, ?_, ?_, ?_, ?_⟩
    · show (List.foldlM parseStep [] rest >>= fun d => pure (path, d))
        = Except.ok (path, d2)
      rw [hfold]
      rfl
    · intro n hb
      exact (hinv n).2.2.1 hb
    · intro n hd
      exact (hinv n).2.2.2 hd
    · intro n hu
      exact (hinv n).1 hu
  · rfl

end Testify
